import Mathlib

/-!
Verification of the Giter backend (`main.go`): the `/api/git-history`
aggregation pipeline `getGitHistory` → `fetchRepositories` / `fetchCommits`.

The Go code is shallowly embedded: upstream HTTP outcomes are an explicit
environment, Go slices (which distinguish nil from empty) are
`Option (List α)`, `encoding/json` decoding into the `Repository` / `Commit`
structs is modelled field by field, and the unguarded string slice
`commit.SHA[:7]` (which panics in Go when the string is shorter than 7
bytes) is an `Option`-valued operation, `none` standing for the panic.
-/

/-- A JSON value, as decoded by `encoding/json`. Numbers are modelled as
integers: none of the decoded struct fields in `main.go` is numeric, so the
numeric representation is never inspected. -/
inductive Json where
  | null : Json
  | bool (b : Bool) : Json
  | num (n : Int) : Json
  | str (s : String) : Json
  | arr (elems : List Json) : Json
  | obj (fields : List (String × Json)) : Json

/-- A Go slice of `α`, distinguishing the nil slice (`none`) from a non-nil
slice with the given elements. `var xs []T` in Go yields the nil slice, and
`encoding/json` marshals the nil slice as JSON `null`, a non-nil slice as a
JSON array. -/
abbrev GoSlice (α : Type) : Type := Option (List α)

/-- The elements of a Go slice; the nil slice has none. -/
def GoSlice.toList {α : Type} : GoSlice α → List α
  | none => []
  | some l => l

/-- Go `append(s, a)`: appending to a nil slice allocates, so the result is
always non-nil. -/
def GoSlice.push {α : Type} : GoSlice α → α → GoSlice α
  | none, a => some [a]
  | some l, a => some (l ++ [a])

/-- The Go slice holding exactly the elements of `l`, nil when `l` is empty:
the value produced by starting from `var xs []T` and appending each element
of `l` in turn. -/
def goSliceOfList {α : Type} : List α → GoSlice α
  | [] => none
  | l => some l

/-- `GoTime` models `time.Time` by the RFC 3339 text it was decoded from
(`encoding/json` renders a `time.Time` back as an RFC 3339 string). -/
abbrev GoTime : Type := String

/-- The zero `time.Time`, as it marshals to JSON. -/
def GoTime.zero : GoTime := "0001-01-01T00:00:00Z"

/-- `Repository` from `main.go`: the decoded shape of one element of the
GitHub list-repositories response. -/
structure Repository where
  Name : String
  FullName : String
  Description : String
  HTMLURL : String
  deriving DecidableEq

/-- The Go zero value of `Repository`. -/
def zeroRepository : Repository := ⟨"", "", "", ""⟩

/-- The nested `commit.author` object of the GitHub commit response
(anonymous struct in `main.go`, named here). -/
structure CommitAuthor where
  Name : String
  Email : String
  Date : GoTime
  deriving DecidableEq

/-- The Go zero value of the author struct. -/
def zeroCommitAuthor : CommitAuthor := ⟨"", "", GoTime.zero⟩

/-- The nested `commit` object of the GitHub commit response (anonymous
struct in `main.go`, named here). -/
structure CommitInner where
  Message : String
  Author : CommitAuthor
  deriving DecidableEq

/-- The Go zero value of the inner commit struct. -/
def zeroCommitInner : CommitInner := ⟨"", zeroCommitAuthor⟩

/-- `Commit` from `main.go`: the decoded shape of one element of the GitHub
list-commits response. -/
structure Commit where
  SHA : String
  Commit : CommitInner
  HTMLURL : String
  deriving DecidableEq

/-- The Go zero value of `Commit`. -/
def zeroCommit : Commit := ⟨"", zeroCommitInner, ""⟩

/-- `CommitHistory` from `main.go`: one entry of the response returned to
the front end. -/
structure CommitHistory where
  RepositoryName : String
  CommitMessage : String
  CommitSHA : String
  CommitTime : GoTime
  CommitURL : String
  deriving DecidableEq

/-! ### RFC 3339 timestamps (`time.Time.UnmarshalJSON`) -/

/-- Numeric value of two ASCII digits (callers check `Char.isDigit` first). -/
def digits2 (a b : Char) : Nat := (a.toNat - 48) * 10 + (b.toNat - 48)

/-- Numeric value of four ASCII digits. -/
def digits4 (a b c d : Char) : Nat := digits2 a b * 100 + digits2 c d

/-- Leap-year rule of the proleptic Gregorian calendar used by `time`. -/
def isLeapYear (y : Nat) : Bool := y % 4 == 0 && (y % 100 != 0 || y % 400 == 0)

/-- Days in a month, as validated by Go's RFC 3339 date parsing. -/
def daysInMonth (y m : Nat) : Nat :=
  if m == 2 then (if isLeapYear y then 29 else 28)
  else if m == 4 || m == 6 || m == 9 || m == 11 then 30
  else 31

/-- Drop a leading run of ASCII digits. -/
def dropDigits : List Char → List Char
  | [] => []
  | c :: r => if c.isDigit then dropDigits r else c :: r

/-- A valid RFC 3339 numeric or `Z` time offset. -/
def offsetOk : List Char → Bool
  | ['Z'] => true
  | [sg, h1, h2, ':', m1, m2] =>
    (sg == '+' || sg == '-') && h1.isDigit && h2.isDigit && m1.isDigit && m2.isDigit
      && digits2 h1 h2 ≤ 23 && digits2 m1 m2 ≤ 59
  | _ => false

/-- Optional fractional seconds (a dot and at least one digit) followed by a
valid offset. -/
def fracThenOffset : List Char → Bool
  | '.' :: rest =>
    match rest with
    | c :: more => c.isDigit && offsetOk (dropDigits more)
    | [] => false
  | rest => offsetOk rest

/-- Validity of a string under the strict RFC 3339 layout Go's
`time.Time.UnmarshalJSON` accepts: `YYYY-MM-DDTHH:MM:SS`, optional
fractional seconds, then `Z` or a `±HH:MM` offset, with calendar-aware
range checks. -/
def rfc3339Valid (s : String) : Bool :=
  match s.data with
  | y1 :: y2 :: y3 :: y4 :: '-' :: m1 :: m2 :: '-' :: d1 :: d2 :: 'T'
      :: h1 :: h2 :: ':' :: n1 :: n2 :: ':' :: s1 :: s2 :: rest =>
    y1.isDigit && y2.isDigit && y3.isDigit && y4.isDigit
      && m1.isDigit && m2.isDigit && d1.isDigit && d2.isDigit
      && h1.isDigit && h2.isDigit && n1.isDigit && n2.isDigit
      && s1.isDigit && s2.isDigit
      && 1 ≤ digits2 m1 m2 && digits2 m1 m2 ≤ 12
      && 1 ≤ digits2 d1 d2
      && digits2 d1 d2 ≤ daysInMonth (digits4 y1 y2 y3 y4) (digits2 m1 m2)
      && digits2 h1 h2 ≤ 23 && digits2 n1 n2 ≤ 59 && digits2 s1 s2 ≤ 59
      && fracThenOffset rest
  | _ => false

/-! ### `encoding/json` decoding into the structs of `main.go`

`Decode` fills a struct field by field: an object key is matched against
the field tags case-insensitively (Go prefers an exact match but also
accepts a case-insensitive one; the tags here are pairwise distinct even
under folding, so matching reduces to ASCII-case-insensitive equality), a
JSON string lands in a `string` field, JSON `null` leaves the current
(zero) value in place, keys matching no tag are ignored, and a value of
the wrong shape for a matched key is a decode error. A `time.Time` field
additionally requires the string to be RFC 3339. Decoding models the
error/no-error outcome with `Option` (`encoding/json` keeps filling later
fields after a type error, but `Decode` still reports the error and
`main.go` then discards the value). -/

/-- Go's key-to-tag matching (`asciiEqualFold` for these all-ASCII tags):
equal length and bytewise equal up to ASCII letter case. -/
def keyMatches (k tag : String) : Bool :=
  k.data.map Char.toLower == tag.data.map Char.toLower

/-- Decode a JSON value into a `string` field currently holding `cur`. -/
def jStr (cur : String) : Json → Option String
  | Json.str s => some s
  | Json.null => some cur
  | _ => none

/-- Decode a JSON value into a `time.Time` field currently holding `cur`. -/
def jTime (cur : GoTime) : Json → Option GoTime
  | Json.str s => if rfc3339Valid s then some s else none
  | Json.null => some cur
  | _ => none

/-- Apply one object member to a `Repository` being decoded; keys are
matched case-insensitively, keys matching no tag are ignored. -/
def setRepoField (r : Repository) : String × Json → Option Repository
  | (k, v) =>
    if keyMatches k "name" then (jStr r.Name v).map fun s => { r with Name := s }
    else if keyMatches k "full_name" then (jStr r.FullName v).map fun s => { r with FullName := s }
    else if keyMatches k "description" then
      (jStr r.Description v).map fun s => { r with Description := s }
    else if keyMatches k "html_url" then (jStr r.HTMLURL v).map fun s => { r with HTMLURL := s }
    else some r

/-- Decode a JSON value into a `Repository` currently holding `cur`. -/
def decodeRepository (cur : Repository) : Json → Option Repository
  | Json.obj fields => fields.foldlM setRepoField cur
  | Json.null => some cur
  | _ => none

/-- Apply one object member to the nested author struct (case-insensitive
key matching as in `setRepoField`). -/
def setAuthorField (a : CommitAuthor) : String × Json → Option CommitAuthor
  | (k, v) =>
    if keyMatches k "name" then (jStr a.Name v).map fun s => { a with Name := s }
    else if keyMatches k "email" then (jStr a.Email v).map fun s => { a with Email := s }
    else if keyMatches k "date" then (jTime a.Date v).map fun d => { a with Date := d }
    else some a

/-- Decode a JSON value into the nested author struct. -/
def decodeAuthor (cur : CommitAuthor) : Json → Option CommitAuthor
  | Json.obj fields => fields.foldlM setAuthorField cur
  | Json.null => some cur
  | _ => none

/-- Apply one object member to the nested `commit` struct (case-insensitive
key matching as in `setRepoField`). -/
def setInnerField (ci : CommitInner) : String × Json → Option CommitInner
  | (k, v) =>
    if keyMatches k "message" then (jStr ci.Message v).map fun s => { ci with Message := s }
    else if keyMatches k "author" then
      (decodeAuthor ci.Author v).map fun a => { ci with Author := a }
    else some ci

/-- Decode a JSON value into the nested `commit` struct. -/
def decodeInner (cur : CommitInner) : Json → Option CommitInner
  | Json.obj fields => fields.foldlM setInnerField cur
  | Json.null => some cur
  | _ => none

/-- Apply one object member to a `Commit` being decoded (case-insensitive
key matching as in `setRepoField`). -/
def setCommitField (c : Commit) : String × Json → Option Commit
  | (k, v) =>
    if keyMatches k "sha" then (jStr c.SHA v).map fun s => { c with SHA := s }
    else if keyMatches k "commit" then
      (decodeInner c.Commit v).map fun ci => { c with Commit := ci }
    else if keyMatches k "html_url" then (jStr c.HTMLURL v).map fun s => { c with HTMLURL := s }
    else some c

/-- Decode a JSON value into a `Commit` currently holding `cur`. -/
def decodeCommit (cur : Commit) : Json → Option Commit
  | Json.obj fields => fields.foldlM setCommitField cur
  | Json.null => some cur
  | _ => none

/-- Decode a response body into `[]Repository` (`var repos []Repository`
then `Decode(&repos)`): JSON `null` leaves the nil slice, a JSON array
yields a non-nil slice with each element decoded into a fresh zero value,
anything else is a decode error. -/
def decodeRepoSlice : Json → Option (GoSlice Repository)
  | Json.null => some none
  | Json.arr elems => (elems.mapM (decodeRepository zeroRepository)).map some
  | _ => none

/-- Decode a response body into `[]Commit`, as in `decodeRepoSlice`. -/
def decodeCommitSlice : Json → Option (GoSlice Commit)
  | Json.null => some none
  | Json.arr elems => (elems.mapM (decodeCommit zeroCommit)).map some
  | _ => none

/-! ### Upstream HTTP model and the two fetchers -/

/-- An HTTP response as observed by the fetchers: status code, status text,
and the body both as raw text (used verbatim in error messages) and as its
JSON parse (`none` when the body is not valid JSON, in which case `Decode`
fails). -/
structure HttpResp where
  StatusCode : Nat
  StatusText : String
  BodyRaw : String
  BodyJson : Option Json

/-- Go's `resp.Status`, the numeric code followed by the status text. -/
def HttpResp.Status (r : HttpResp) : String :=
  toString r.StatusCode ++ " " ++ r.StatusText

/-- One request's upstream world: the outcome of the single list-repositories
call and of the list-commits call for each repository full name. `Except.error`
is a transport failure (network error or timeout) carrying Go's error text. -/
structure Upstream where
  reposResp : Except String HttpResp
  commitsResp : String → Except String HttpResp

/-- The errors `fetchRepositories` / `fetchCommits` return: a transport
error from `client.Do`, the API error built with
`fmt.Errorf("GitHub API error: %s - %s", resp.Status, string(body))`, or a
`Decode` error (whose exact Go text varies with the malformed input and is
abstracted here). -/
inductive GoError where
  | transport (msg : String) : GoError
  | api (status : String) (body : String) : GoError
  | decode : GoError
  deriving DecidableEq

/-- `err.Error()`: the message the handler places in the 500 response. -/
def GoError.message : GoError → String
  | .transport msg => msg
  | .api status body => "GitHub API error: " ++ status ++ " - " ++ body
  | .decode => "json: cannot unmarshal response body"

/-- `fetchRepositories` from `main.go`: one upstream call; non-`http.StatusOK`
(200) statuses become API errors carrying `resp.Status` and the raw body;
a 200 body is decoded into `[]Repository`. -/
def fetchRepositories (env : Upstream) : Except GoError (GoSlice Repository) :=
  match env.reposResp with
  | .error msg => .error (.transport msg)
  | .ok resp =>
    if resp.StatusCode ≠ 200 then
      .error (.api resp.Status resp.BodyRaw)
    else
      match resp.BodyJson with
      | none => .error .decode
      | some j =>
        match decodeRepoSlice j with
        | none => .error .decode
        | some repos => .ok repos

/-- `fetchCommits` from `main.go`: identical call structure, keyed by the
repository full name (the URL is built injectively from it), decoding into
`[]Commit`. -/
def fetchCommits (env : Upstream) (repoFullName : String) : Except GoError (GoSlice Commit) :=
  match env.commitsResp repoFullName with
  | .error msg => .error (.transport msg)
  | .ok resp =>
    if resp.StatusCode ≠ 200 then
      .error (.api resp.Status resp.BodyRaw)
    else
      match resp.BodyJson with
      | none => .error .decode
      | some j =>
        match decodeCommitSlice j with
        | none => .error .decode
        | some commits => .ok commits

/-! ### The handler `getGitHistory` -/

/-- Go's `s[:n]` on a string: the first `n` bytes, panicking (`none`) when
`n` exceeds the length. Characters model bytes; commit shas are ASCII hex. -/
def goStringTake (s : String) (n : Nat) : Option String :=
  if n ≤ s.data.length then some ⟨s.data.take n⟩ else none

/-- Build one `CommitHistory` entry from a repository and a commit, as the
literal inside the handler's inner loop; `none` is the panic of the
unguarded `commit.SHA[:7]`. -/
def buildEntry (repo : Repository) (commit : Commit) : Option CommitHistory :=
  (goStringTake commit.SHA 7).map fun short =>
    { RepositoryName := repo.Name
      CommitMessage := commit.Commit.Message
      CommitSHA := short
      CommitTime := commit.Commit.Author.Date
      CommitURL := commit.HTMLURL }

/-- The handler's inner loop: append one entry per fetched commit to
`allCommits`, propagating the sha-slice panic. -/
def appendEntries (repo : Repository) (acc : GoSlice CommitHistory) :
    List Commit → Option (GoSlice CommitHistory)
  | [] => some acc
  | c :: cs =>
    match buildEntry repo c with
    | none => none
    | some e => appendEntries repo (acc.push e) cs

/-- The handler's outer loop over the listed repositories: fetch each
repository's commits (recording the call), skip the repository on error,
append its entries on success. Returns the accumulated slice and the list
of commit fetches performed. -/
def aggregateLoop (env : Upstream) (acc : GoSlice CommitHistory) (calls : List String) :
    List Repository → Option (GoSlice CommitHistory × List String)
  | [] => some (acc, calls)
  | repo :: rest =>
    match fetchCommits env repo.FullName with
    | .error _ => aggregateLoop env acc (calls ++ [repo.FullName]) rest
    | .ok commits =>
      match appendEntries repo acc commits.toList with
      | none => none
      | some acc2 => aggregateLoop env acc2 (calls ++ [repo.FullName]) rest

/-- Marshal one output entry (`time.Time` renders as its RFC 3339 text). -/
def CommitHistory.toJson (e : CommitHistory) : Json :=
  Json.obj [("repository_name", Json.str e.RepositoryName),
            ("commit_message", Json.str e.CommitMessage),
            ("commit_sha", Json.str e.CommitSHA),
            ("commit_time", Json.str e.CommitTime),
            ("commit_url", Json.str e.CommitURL)]

/-- Marshal the `[]CommitHistory` slice as `c.JSON` does: the nil slice
becomes JSON `null`, a non-nil slice a JSON array. -/
def goSliceToJson : GoSlice CommitHistory → Json
  | none => Json.null
  | some l => Json.arr (l.map CommitHistory.toJson)

/-- One observed run of the handler: HTTP status, serialized JSON body, and
the repository full names for which a commit fetch was performed. -/
structure HandlerRun where
  status : Nat
  body : Json
  commitCalls : List String

/-- `getGitHistory` from `main.go`: on a listing error respond
`500 {"error": err.Error()}` before any commit fetch; otherwise run the
aggregation loop over the listed repositories starting from the nil slice
`var allCommits []CommitHistory` and respond 200 with the slice serialized.
`none` is the panic of the unguarded sha slice. -/
def getGitHistory (env : Upstream) : Option HandlerRun :=
  match fetchRepositories env with
  | .error e => some ⟨500, Json.obj [("error", Json.str e.message)], []⟩
  | .ok repos =>
    match aggregateLoop env none [] repos.toList with
    | none => none
    | some (allCommits, calls) => some ⟨200, goSliceToJson allCommits, calls⟩

/-! ### Derived descriptions of the aggregation -/

/-- The entry the handler builds for a commit whose sha is long enough
(total version of `buildEntry`). -/
def entryTotal (repo : Repository) (commit : Commit) : CommitHistory :=
  { RepositoryName := repo.Name
    CommitMessage := commit.Commit.Message
    CommitSHA := ⟨commit.SHA.data.take 7⟩
    CommitTime := commit.Commit.Author.Date
    CommitURL := commit.HTMLURL }

/-- The block of entries one repository contributes: none when its commit
fetch fails, its commits in fetched order when it succeeds. -/
def repoBlock (env : Upstream) (repo : Repository) : List CommitHistory :=
  match fetchCommits env repo.FullName with
  | .error _ => []
  | .ok commits => commits.toList.map (entryTotal repo)

/-- All entries of a run: the per-repository blocks concatenated in listing
order. -/
def historyBlocks (env : Upstream) (repos : List Repository) : List CommitHistory :=
  repos.flatMap (repoBlock env)

/-- Every commit any successful fetch returns for these repositories has a
sha of at least 7 characters, so the handler does not hit the sha-slice
panic. -/
def shaOkB (env : Upstream) (repos : List Repository) : Bool :=
  repos.all fun repo =>
    match fetchCommits env repo.FullName with
    | .error _ => true
    | .ok commits => commits.toList.all fun c => 7 ≤ c.SHA.data.length

/-- The total number of commits returned by the successful fetches. -/
def sumCommitCounts (env : Upstream) (repos : List Repository) : Nat :=
  (repos.map fun repo =>
    match fetchCommits env repo.FullName with
    | .error _ => 0
    | .ok commits => commits.toList.length).sum

/-- Number of elements of a JSON array (`null` and non-arrays count 0). -/
def jsonArrayLength : Json → Nat
  | Json.arr elems => elems.length
  | _ => 0

/-! ### Compatibility of a body with the decoded shapes

These predicates follow the words of the spec ("a JSON array of objects of
compatible field types") rather than the source: they are the spec-side
description the decoders are compared against. -/

/-- A value a `string` field accepts: a JSON string, or `null` (kept zero). -/
def strOrNull : Json → Bool
  | Json.str _ => true
  | Json.null => true
  | _ => false

/-- A value a `time.Time` field accepts: an RFC 3339 string, or `null`. -/
def timeOrNull : Json → Bool
  | Json.str s => rfc3339Valid s
  | Json.null => true
  | _ => false

/-- Compatibility of one object member with the `Repository` field types
(keys matched case-insensitively, as the decoder does). -/
def repoFieldCompatible : String × Json → Bool
  | (k, v) =>
    if keyMatches k "name" then strOrNull v
    else if keyMatches k "full_name" then strOrNull v
    else if keyMatches k "description" then strOrNull v
    else if keyMatches k "html_url" then strOrNull v
    else true

/-- An element decodable as a `Repository`: an object of compatible fields,
or `null` (kept zero). -/
def repoObjCompatible : Json → Bool
  | Json.obj fields => fields.all repoFieldCompatible
  | Json.null => true
  | _ => false

/-- A listing body that is a JSON array of `Repository`-compatible objects. -/
def repoArrayCompatible : Json → Bool
  | Json.arr elems => elems.all repoObjCompatible
  | _ => false

/-- Compatibility with the nested author struct's field types
(case-insensitive keys). -/
def authorFieldCompatible : String × Json → Bool
  | (k, v) =>
    if keyMatches k "name" then strOrNull v
    else if keyMatches k "email" then strOrNull v
    else if keyMatches k "date" then timeOrNull v
    else true

/-- An element decodable as the nested author struct. -/
def authorObjCompatible : Json → Bool
  | Json.obj fields => fields.all authorFieldCompatible
  | Json.null => true
  | _ => false

/-- Compatibility with the nested `commit` struct's field types
(case-insensitive keys). -/
def innerFieldCompatible : String × Json → Bool
  | (k, v) =>
    if keyMatches k "message" then strOrNull v
    else if keyMatches k "author" then authorObjCompatible v
    else true

/-- An element decodable as the nested `commit` struct. -/
def innerObjCompatible : Json → Bool
  | Json.obj fields => fields.all innerFieldCompatible
  | Json.null => true
  | _ => false

/-- Compatibility of one object member with the `Commit` field types
(case-insensitive keys). -/
def commitFieldCompatible : String × Json → Bool
  | (k, v) =>
    if keyMatches k "sha" then strOrNull v
    else if keyMatches k "commit" then innerObjCompatible v
    else if keyMatches k "html_url" then strOrNull v
    else true

/-- An element decodable as a `Commit`. -/
def commitObjCompatible : Json → Bool
  | Json.obj fields => fields.all commitFieldCompatible
  | Json.null => true
  | _ => false

/-- A commits body that is a JSON array of `Commit`-compatible objects. -/
def commitArrayCompatible : Json → Bool
  | Json.arr elems => elems.all commitObjCompatible
  | _ => false

/-! ### Concrete fixtures used to exercise the claims -/

/-- A minimal repository object as the listing endpoint returns it. -/
def mkRepoJson (name full : String) : Json :=
  Json.obj [("name", Json.str name), ("full_name", Json.str full)]

/-- A commit object in the nested shape the commits endpoint returns. -/
def mkCommitJson (sha msg date url : String) : Json :=
  Json.obj [("sha", Json.str sha),
            ("commit", Json.obj [("message", Json.str msg),
              ("author", Json.obj [("name", Json.str "dev"),
                ("email", Json.str "dev@example.com"),
                ("date", Json.str date)])]),
            ("html_url", Json.str url)]

/-- The `Commit` value `mkCommitJson` decodes to. -/
def mkCommit (sha msg date url : String) : Commit :=
  ⟨sha, ⟨msg, ⟨"dev", "dev@example.com", date⟩⟩, url⟩

/-- A 200 response with the given raw body and parse. -/
def okResp (raw : String) (j : Json) : HttpResp := ⟨200, "OK", raw, some j⟩

/-- A 404 response as GitHub sends for a missing repository. -/
def notFoundResp : HttpResp :=
  ⟨404, "Not Found", "Not Found body", some (Json.obj [("message", Json.str "Not Found")])⟩

/-- A 40-character hexadecimal sha. -/
def sha40 : String := "0123456789abcdef0123456789abcdef01234567"

/-- A second 40-character sha. -/
def sha40b : String := "fedcba9876543210fedcba9876543210fedcba98"

/-- The repository records the fixtures decode to. -/
def repoA : Repository := ⟨"a", "u/a", "", ""⟩

/-- Second fixture repository. -/
def repoB : Repository := ⟨"b", "u/b", "", ""⟩

/-- Listing succeeds with zero repositories; commit calls unreachable. -/
def envListEmpty : Upstream :=
  ⟨.ok (okResp "[]" (Json.arr [])), fun _ => .error "unreachable"⟩

/-- The listing call times out. -/
def envTimeout : Upstream :=
  ⟨.error "Get https://api.github.com/users/develop-suda/repos: context deadline exceeded",
   fun _ => .error "unreachable"⟩

/-- Listing succeeds with repositories `a` and `b`; the commit call for `a`
succeeds with one commit, the one for `b` fails with a 404. -/
def envMixed : Upstream :=
  ⟨.ok (okResp "listing body" (Json.arr [mkRepoJson "a" "u/a", mkRepoJson "b" "u/b"])),
   fun n => if n = "u/a" then
      .ok (okResp "commits body"
        (Json.arr [mkCommitJson sha40 "init" "2024-01-02T03:04:05Z" "http://c/a1"]))
    else .ok notFoundResp⟩

/-- The listing call answers 201, a 2xx status other than 200, with a
decodable empty-array body. -/
def env201 : Upstream :=
  ⟨.ok ⟨201, "Created", "[]", some (Json.arr [])⟩, fun _ => .error "unreachable"⟩

/-- The listing call answers 404. -/
def env404 : Upstream :=
  ⟨.ok notFoundResp, fun _ => .error "unreachable"⟩

/-- The listing succeeds and every commit call answers 404. -/
def envCommits404 : Upstream :=
  ⟨.ok (okResp "[]" (Json.arr [])), fun _ => .ok notFoundResp⟩

/-- A commit whose sha has only 5 characters. -/
def commitShort : Commit := mkCommit "abc12" "short sha" "2024-01-02T03:04:05Z" "http://c/s"

/-- Listing succeeds with repository `a`, whose commit fetch succeeds with
one commit whose sha is shorter than 7 characters. -/
def envShort : Upstream :=
  ⟨.ok (okResp "listing body" (Json.arr [mkRepoJson "a" "u/a"])),
   fun n => if n = "u/a" then
      .ok (okResp "commits body"
        (Json.arr [mkCommitJson "abc12" "short sha" "2024-01-02T03:04:05Z" "http://c/s"]))
    else .error "unreachable"⟩

/-- Listing returns `b` before `a`; `b` has two commits (older date first)
and `a` one newer commit, so listing order and fetched order disagree with
both alphabetical and global time order. -/
def envOrder : Upstream :=
  ⟨.ok (okResp "listing body" (Json.arr [mkRepoJson "b" "u/b", mkRepoJson "a" "u/a"])),
   fun n => if n = "u/b" then
      .ok (okResp "commits body"
        (Json.arr [mkCommitJson sha40 "b one" "2020-05-05T05:05:05Z" "http://c/b1",
                   mkCommitJson sha40b "b two" "2021-06-06T06:06:06Z" "http://c/b2"]))
    else if n = "u/a" then
      .ok (okResp "commits body"
        (Json.arr [mkCommitJson sha40b "a one" "2024-01-02T03:04:05Z" "http://c/a1"]))
    else .error "unreachable"⟩

/-- First of two worlds with byte-for-byte different upstream responses but
identical decoded outcomes. -/
def envDetA : Upstream :=
  ⟨.ok (okResp "raw variant one"
      (Json.arr [Json.obj [("name", Json.str "a"), ("full_name", Json.str "u/a"),
                           ("stargazers_count", Json.num 3)]])),
   fun _ => .ok (okResp "raw commits one" (Json.arr []))⟩

/-- Second world: same decoded outcomes as `envDetA`, different raw bodies
and no unknown field. -/
def envDetB : Upstream :=
  ⟨.ok (okResp "raw variant two" (Json.arr [mkRepoJson "a" "u/a"])),
   fun _ => .ok (okResp "raw commits two" (Json.arr []))⟩

/-! ### Core lemmas about the aggregation loop -/

theorem goSlicePush_ofList {α : Type} (m : List α) (a : α) :
    GoSlice.push (goSliceOfList m) a = goSliceOfList (m ++ [a]) := by
  cases m <;> rfl

theorem goSliceOfList_toList {α : Type} (m : List α) :
    (goSliceOfList m).toList = m := by
  cases m <;> rfl

theorem appendEntries_ofList (repo : Repository) (m : List CommitHistory)
    (cs : List Commit) (h : ∀ c ∈ cs, 7 ≤ c.SHA.data.length) :
    appendEntries repo (goSliceOfList m) cs =
      some (goSliceOfList (m ++ cs.map (entryTotal repo))) := by
  induction cs generalizing m with
  | nil => simp [appendEntries]
  | cons c cs ih =>
    have hc : 7 ≤ c.SHA.data.length := h c (List.mem_cons_self c cs)
    have hc' : 7 ≤ c.SHA.length := hc
    have hbuild : buildEntry repo c = some (entryTotal repo c) := by
      simp [buildEntry, goStringTake, entryTotal, hc, hc']
    simp only [appendEntries, hbuild]
    rw [goSlicePush_ofList]
    rw [ih (m ++ [entryTotal repo c]) (fun x hx => h x (List.mem_cons_of_mem c hx))]
    simp

theorem aggregateLoop_ofList (env : Upstream) (repos : List Repository)
    (m : List CommitHistory) (calls : List String)
    (h : shaOkB env repos = true) :
    aggregateLoop env (goSliceOfList m) calls repos =
      some (goSliceOfList (m ++ historyBlocks env repos),
            calls ++ repos.map (·.FullName)) := by
  induction repos generalizing m calls with
  | nil => simp [aggregateLoop, historyBlocks]
  | cons repo rest ih =>
    have hrest : shaOkB env rest = true := by
      have := (List.all_eq_true.mp h)
      exact List.all_eq_true.mpr fun x hx => this x (List.mem_cons_of_mem repo hx)
    have hhead := (List.all_eq_true.mp h) repo (List.mem_cons_self repo rest)
    cases hfc : fetchCommits env repo.FullName with
    | error e =>
      simp only [aggregateLoop, hfc]
      rw [ih m (calls ++ [repo.FullName]) hrest]
      simp [historyBlocks, repoBlock, hfc]
    | ok commits =>
      have hsha : ∀ c ∈ commits.toList, 7 ≤ c.SHA.data.length := by
        rw [hfc] at hhead
        simpa using List.all_eq_true.mp hhead
      simp only [aggregateLoop, hfc]
      rw [appendEntries_ofList repo m commits.toList hsha]
      dsimp only
      rw [ih (m ++ commits.toList.map (entryTotal repo)) (calls ++ [repo.FullName]) hrest]
      simp [historyBlocks, repoBlock, hfc]

/-- Shape of every non-panicking successful run: status 200, body the
serialization of the block concatenation, one commit fetch per listed
repository in order. -/
theorem getGitHistory_ok (env : Upstream) (repos : GoSlice Repository)
    (h1 : fetchRepositories env = .ok repos)
    (h2 : shaOkB env repos.toList = true) :
    getGitHistory env =
      some ⟨200, goSliceToJson (goSliceOfList (historyBlocks env repos.toList)),
            repos.toList.map (·.FullName)⟩ := by
  have hloop := aggregateLoop_ofList env repos.toList [] [] h2
  rw [show (goSliceOfList ([] : List CommitHistory)) = (none : GoSlice CommitHistory)
        from rfl] at hloop
  simp only [List.nil_append] at hloop
  simp only [getGitHistory, h1, hloop]

/-! ### Decode leniency lemmas -/

theorem jStr_isSome (cur : String) (v : Json) (h : strOrNull v = true) :
    (jStr cur v).isSome = true := by
  cases v <;> simp_all [jStr, strOrNull]

theorem jTime_isSome (cur : GoTime) (v : Json) (h : timeOrNull v = true) :
    (jTime cur v).isSome = true := by
  cases v <;> simp_all [jTime, timeOrNull]

theorem setRepoField_unknown (r : Repository) (k : String) (v : Json)
    (h : keyMatches k "name" = false ∧ keyMatches k "full_name" = false ∧
         keyMatches k "description" = false ∧ keyMatches k "html_url" = false) :
    setRepoField r (k, v) = some r := by
  obtain ⟨h1, h2, h3, h4⟩ := h
  simp [setRepoField, h1, h2, h3, h4]

theorem setRepoField_isSome (r : Repository) (kv : String × Json)
    (h : repoFieldCompatible kv = true) : (setRepoField r kv).isSome = true := by
  obtain ⟨k, v⟩ := kv
  by_cases h1 : keyMatches k "name" = true
  · simp only [repoFieldCompatible, h1, if_true] at h
    simp [setRepoField, h1, Option.isSome_map, jStr_isSome _ _ h]
  · rw [Bool.not_eq_true] at h1
    by_cases h2 : keyMatches k "full_name" = true
    · simp only [repoFieldCompatible, h1, h2, if_true, Bool.false_eq_true, if_false] at h
      simp [setRepoField, h1, h2, Option.isSome_map, jStr_isSome _ _ h]
    · rw [Bool.not_eq_true] at h2
      by_cases h3 : keyMatches k "description" = true
      · simp only [repoFieldCompatible, h1, h2, h3, if_true, Bool.false_eq_true, if_false] at h
        simp [setRepoField, h1, h2, h3, Option.isSome_map, jStr_isSome _ _ h]
      · rw [Bool.not_eq_true] at h3
        by_cases h4 : keyMatches k "html_url" = true
        · simp only [repoFieldCompatible, h1, h2, h3, h4, if_true, Bool.false_eq_true,
            if_false] at h
          simp [setRepoField, h1, h2, h3, h4, Option.isSome_map, jStr_isSome _ _ h]
        · rw [Bool.not_eq_true] at h4
          rw [setRepoField_unknown r k v ⟨h1, h2, h3, h4⟩]
          rfl

theorem decodeRepository_isSome (cur : Repository) (j : Json)
    (h : repoObjCompatible j = true) : (decodeRepository cur j).isSome = true := by
  cases j with
  | obj fields =>
    simp only [repoObjCompatible, List.all_eq_true] at h
    simp only [decodeRepository]
    induction fields generalizing cur with
    | nil => rfl
    | cons f fs ih =>
      rw [List.foldlM_cons]
      have hf := setRepoField_isSome cur f (h f (List.mem_cons_self f fs))
      obtain ⟨r2, hr2⟩ := Option.isSome_iff_exists.mp hf
      rw [hr2]
      simpa using ih r2 (fun x hx => h x (List.mem_cons_of_mem f hx))
  | null => rfl
  | _ => simp [repoObjCompatible] at h

theorem setAuthorField_unknown (a : CommitAuthor) (k : String) (v : Json)
    (h : keyMatches k "name" = false ∧ keyMatches k "email" = false ∧
         keyMatches k "date" = false) :
    setAuthorField a (k, v) = some a := by
  obtain ⟨h1, h2, h3⟩ := h
  simp [setAuthorField, h1, h2, h3]

theorem setAuthorField_isSome (a : CommitAuthor) (kv : String × Json)
    (h : authorFieldCompatible kv = true) : (setAuthorField a kv).isSome = true := by
  obtain ⟨k, v⟩ := kv
  by_cases h1 : keyMatches k "name" = true
  · simp only [authorFieldCompatible, h1, if_true] at h
    simp [setAuthorField, h1, Option.isSome_map, jStr_isSome _ _ h]
  · rw [Bool.not_eq_true] at h1
    by_cases h2 : keyMatches k "email" = true
    · simp only [authorFieldCompatible, h1, h2, if_true, Bool.false_eq_true, if_false] at h
      simp [setAuthorField, h1, h2, Option.isSome_map, jStr_isSome _ _ h]
    · rw [Bool.not_eq_true] at h2
      by_cases h3 : keyMatches k "date" = true
      · simp only [authorFieldCompatible, h1, h2, h3, if_true, Bool.false_eq_true, if_false] at h
        simp [setAuthorField, h1, h2, h3, Option.isSome_map, jTime_isSome _ _ h]
      · rw [Bool.not_eq_true] at h3
        rw [setAuthorField_unknown a k v ⟨h1, h2, h3⟩]
        rfl

theorem decodeAuthor_isSome (cur : CommitAuthor) (j : Json)
    (h : authorObjCompatible j = true) : (decodeAuthor cur j).isSome = true := by
  cases j with
  | obj fields =>
    simp only [authorObjCompatible, List.all_eq_true] at h
    simp only [decodeAuthor]
    induction fields generalizing cur with
    | nil => rfl
    | cons f fs ih =>
      rw [List.foldlM_cons]
      obtain ⟨a2, ha2⟩ := Option.isSome_iff_exists.mp
        (setAuthorField_isSome cur f (h f (List.mem_cons_self f fs)))
      rw [ha2]
      simpa using ih a2 (fun x hx => h x (List.mem_cons_of_mem f hx))
  | null => rfl
  | _ => simp [authorObjCompatible] at h

theorem setInnerField_unknown (ci : CommitInner) (k : String) (v : Json)
    (h : keyMatches k "message" = false ∧ keyMatches k "author" = false) :
    setInnerField ci (k, v) = some ci := by
  obtain ⟨h1, h2⟩ := h
  simp [setInnerField, h1, h2]

theorem setInnerField_isSome (ci : CommitInner) (kv : String × Json)
    (h : innerFieldCompatible kv = true) : (setInnerField ci kv).isSome = true := by
  obtain ⟨k, v⟩ := kv
  by_cases h1 : keyMatches k "message" = true
  · simp only [innerFieldCompatible, h1, if_true] at h
    simp [setInnerField, h1, Option.isSome_map, jStr_isSome _ _ h]
  · rw [Bool.not_eq_true] at h1
    by_cases h2 : keyMatches k "author" = true
    · simp only [innerFieldCompatible, h1, h2, if_true, Bool.false_eq_true, if_false] at h
      simp [setInnerField, h1, h2, Option.isSome_map, decodeAuthor_isSome _ _ h]
    · rw [Bool.not_eq_true] at h2
      rw [setInnerField_unknown ci k v ⟨h1, h2⟩]
      rfl

theorem decodeInner_isSome (cur : CommitInner) (j : Json)
    (h : innerObjCompatible j = true) : (decodeInner cur j).isSome = true := by
  cases j with
  | obj fields =>
    simp only [innerObjCompatible, List.all_eq_true] at h
    simp only [decodeInner]
    induction fields generalizing cur with
    | nil => rfl
    | cons f fs ih =>
      rw [List.foldlM_cons]
      obtain ⟨ci2, hci2⟩ := Option.isSome_iff_exists.mp
        (setInnerField_isSome cur f (h f (List.mem_cons_self f fs)))
      rw [hci2]
      simpa using ih ci2 (fun x hx => h x (List.mem_cons_of_mem f hx))
  | null => rfl
  | _ => simp [innerObjCompatible] at h

theorem setCommitField_unknown (c : Commit) (k : String) (v : Json)
    (h : keyMatches k "sha" = false ∧ keyMatches k "commit" = false ∧
         keyMatches k "html_url" = false) :
    setCommitField c (k, v) = some c := by
  obtain ⟨h1, h2, h3⟩ := h
  simp [setCommitField, h1, h2, h3]

theorem setCommitField_isSome (c : Commit) (kv : String × Json)
    (h : commitFieldCompatible kv = true) : (setCommitField c kv).isSome = true := by
  obtain ⟨k, v⟩ := kv
  by_cases h1 : keyMatches k "sha" = true
  · simp only [commitFieldCompatible, h1, if_true] at h
    simp [setCommitField, h1, Option.isSome_map, jStr_isSome _ _ h]
  · rw [Bool.not_eq_true] at h1
    by_cases h2 : keyMatches k "commit" = true
    · simp only [commitFieldCompatible, h1, h2, if_true, Bool.false_eq_true, if_false] at h
      simp [setCommitField, h1, h2, Option.isSome_map, decodeInner_isSome _ _ h]
    · rw [Bool.not_eq_true] at h2
      by_cases h3 : keyMatches k "html_url" = true
      · simp only [commitFieldCompatible, h1, h2, h3, if_true, Bool.false_eq_true, if_false] at h
        simp [setCommitField, h1, h2, h3, Option.isSome_map, jStr_isSome _ _ h]
      · rw [Bool.not_eq_true] at h3
        rw [setCommitField_unknown c k v ⟨h1, h2, h3⟩]
        rfl

theorem decodeCommit_isSome (cur : Commit) (j : Json)
    (h : commitObjCompatible j = true) : (decodeCommit cur j).isSome = true := by
  cases j with
  | obj fields =>
    simp only [commitObjCompatible, List.all_eq_true] at h
    simp only [decodeCommit]
    induction fields generalizing cur with
    | nil => rfl
    | cons f fs ih =>
      rw [List.foldlM_cons]
      obtain ⟨c2, hc2⟩ := Option.isSome_iff_exists.mp
        (setCommitField_isSome cur f (h f (List.mem_cons_self f fs)))
      rw [hc2]
      simpa using ih c2 (fun x hx => h x (List.mem_cons_of_mem f hx))
  | null => rfl
  | _ => simp [commitObjCompatible] at h

theorem mapM_isSome {α β : Type} (f : α → Option β) (l : List α)
    (h : ∀ x ∈ l, (f x).isSome = true) : (l.mapM f).isSome = true := by
  induction l with
  | nil => rfl
  | cons x xs ih =>
    obtain ⟨y, hy⟩ := Option.isSome_iff_exists.mp (h x (List.mem_cons_self x xs))
    obtain ⟨ys, hys⟩ := Option.isSome_iff_exists.mp
      (ih fun z hz => h z (List.mem_cons_of_mem x hz))
    rw [List.mapM_cons]
    simp only [hy, hys, Option.some_bind]
    rfl

theorem decodeRepoSlice_isSome (j : Json) (h : repoArrayCompatible j = true) :
    (decodeRepoSlice j).isSome = true := by
  cases j with
  | arr elems =>
    simp only [repoArrayCompatible, List.all_eq_true] at h
    obtain ⟨l, hl⟩ := Option.isSome_iff_exists.mp
      (mapM_isSome (decodeRepository zeroRepository) elems
        (fun x hx => decodeRepository_isSome _ _ (h x hx)))
    simp only [decodeRepoSlice]
    rw [hl]
    rfl
  | _ => simp_all [repoArrayCompatible]

theorem decodeCommitSlice_isSome (j : Json) (h : commitArrayCompatible j = true) :
    (decodeCommitSlice j).isSome = true := by
  cases j with
  | arr elems =>
    simp only [commitArrayCompatible, List.all_eq_true] at h
    obtain ⟨l, hl⟩ := Option.isSome_iff_exists.mp
      (mapM_isSome (decodeCommit zeroCommit) elems
        (fun x hx => decodeCommit_isSome _ _ (h x hx)))
    simp only [decodeCommitSlice]
    rw [hl]
    rfl
  | _ => simp_all [commitArrayCompatible]

/-! ### Further helper lemmas -/

theorem shaOkB_of_blocks_nil (env : Upstream) (repos : List Repository)
    (h : historyBlocks env repos = []) : shaOkB env repos = true := by
  induction repos with
  | nil => rfl
  | cons repo rest ih =>
    rw [historyBlocks, List.flatMap_cons] at h
    obtain ⟨hhead, htail⟩ := List.append_eq_nil.mp h
    simp only [shaOkB, List.all_cons, Bool.and_eq_true]
    constructor
    · cases hfc : fetchCommits env repo.FullName with
      | error e => rfl
      | ok commits =>
        simp only [repoBlock, hfc] at hhead
        have hnil : commits.toList = [] := List.map_eq_nil_iff.mp hhead
        simp [hnil]
    · exact ih htail

theorem historyBlocks_length (env : Upstream) (repos : List Repository) :
    (historyBlocks env repos).length = sumCommitCounts env repos := by
  induction repos with
  | nil => rfl
  | cons repo rest ih =>
    simp only [historyBlocks, List.flatMap_cons, List.length_append, sumCommitCounts,
      List.map_cons, List.sum_cons] at ih ⊢
    cases hfc : fetchCommits env repo.FullName with
    | error e => simp [repoBlock, hfc, ih]
    | ok commits => simp [repoBlock, hfc, ih]

theorem jsonArrayLength_goSlice (l : List CommitHistory) :
    jsonArrayLength (goSliceToJson (goSliceOfList l)) = l.length := by
  cases l with
  | nil => rfl
  | cons x xs => simp [goSliceOfList, goSliceToJson, jsonArrayLength]

theorem aggregateLoop_congr (e1 e2 : Upstream)
    (h : ∀ n, fetchCommits e1 n = fetchCommits e2 n) (repos : List Repository) :
    ∀ acc calls, aggregateLoop e1 acc calls repos = aggregateLoop e2 acc calls repos := by
  induction repos with
  | nil => intro acc calls; rfl
  | cons repo rest ih =>
    intro acc calls
    simp only [aggregateLoop, h repo.FullName]
    cases fetchCommits e2 repo.FullName with
    | error e => exact ih _ _
    | ok commits =>
      dsimp only
      cases appendEntries repo acc commits.toList with
      | none => rfl
      | some acc2 => exact ih _ _

/-! ### The claims -/

/-- Claim C1, counterexample: with a successful listing of zero
repositories the handler responds 200 but the body is JSON `null`, not the
empty JSON array the claim requires — `var allCommits []CommitHistory`
stays the nil slice and serializes as `null`. -/
theorem C1_counterexample :
    getGitHistory envListEmpty = some ⟨200, Json.null, []⟩ ∧ Json.null ≠ Json.arr [] :=
  ⟨rfl, fun h => Json.noConfusion h⟩

/-- Claim C1 as amended: if the repository listing succeeds and the
aggregation loop appends no entries, the endpoint responds HTTP 200, but
the output collection is the nil slice and is serialized as JSON `null`
(not as an empty JSON array). -/
theorem C1_zero_entries_serializes_null (env : Upstream) (repos : GoSlice Repository)
    (h1 : fetchRepositories env = .ok repos)
    (h2 : historyBlocks env repos.toList = []) :
    getGitHistory env = some ⟨200, Json.null, repos.toList.map (·.FullName)⟩ := by
  have hsha := shaOkB_of_blocks_nil env repos.toList h2
  have hrun := getGitHistory_ok env repos h1 hsha
  rw [h2] at hrun
  exact hrun

/-- Witness for C1: the amended theorem applied to the zero-repository
environment. -/
theorem C1_witness :
    getGitHistory envListEmpty =
      some ⟨200, Json.null, (GoSlice.toList (some ([] : List Repository))).map (·.FullName)⟩ :=
  C1_zero_entries_serializes_null envListEmpty (some []) rfl rfl

/-- Claim C2: whenever the repository-listing call fails (transport error,
non-200 status, or decode failure — exactly the error cases of
`fetchRepositories`), the handler responds HTTP 500 with the JSON object
`{"error": message}` carrying the error's message, performs no commit
fetch, and produces no partial output collection. -/
theorem C2_listing_failure_500 (env : Upstream) (e : GoError)
    (h : fetchRepositories env = .error e) :
    getGitHistory env = some ⟨500, Json.obj [("error", Json.str e.message)], []⟩ := by
  simp only [getGitHistory, h]

/-- Witness for C2: the listing call times out; the handler answers 500
with the timeout message and performs no commit fetch. -/
theorem C2_witness :
    getGitHistory envTimeout =
      some ⟨500, Json.obj [("error", Json.str
        "Get https://api.github.com/users/develop-suda/repos: context deadline exceeded")], []⟩ :=
  C2_listing_failure_500 envTimeout
    (GoError.transport
      "Get https://api.github.com/users/develop-suda/repos: context deadline exceeded") rfl

/-- Claim C7: the entry-building step is not total — a successful commit
fetch can return a commit whose sha has fewer than 7 characters, and on
that input the unguarded `commit.SHA[:7]` slice faults (modelled `none`),
taking the whole handler down. -/
theorem C7_short_sha_faults :
    commitShort.SHA.length < 7 ∧
    fetchCommits envShort "u/a" = .ok (some [commitShort]) ∧
    buildEntry repoA commitShort = none ∧
    getGitHistory envShort = none :=
  ⟨by decide, rfl, rfl, rfl⟩

/-- Claim C3: when the repository listing succeeds (and no commit sha is
shorter than 7 characters, the undefined case of C7), the endpoint
responds HTTP 200 no matter how many per-repository commit calls fail: a
failing repository contributes the empty block, a succeeding one
contributes exactly its entries, and no per-repository failure changes the
status or surfaces to the caller. -/
theorem C3_repo_failures_tolerated (env : Upstream) (repos : GoSlice Repository)
    (h1 : fetchRepositories env = .ok repos)
    (h2 : shaOkB env repos.toList = true) :
    getGitHistory env =
      some ⟨200, goSliceToJson (goSliceOfList (historyBlocks env repos.toList)),
            repos.toList.map (·.FullName)⟩ ∧
    (∀ repo e, fetchCommits env repo.FullName = .error e → repoBlock env repo = []) ∧
    (∀ repo commits, fetchCommits env repo.FullName = .ok commits →
        repoBlock env repo = commits.toList.map (entryTotal repo)) := by
  refine ⟨getGitHistory_ok env repos h1 h2, ?_, ?_⟩
  · intro repo e hfc
    simp [repoBlock, hfc]
  · intro repo commits hfc
    simp [repoBlock, hfc]

/-- Witness for C3: repository `a` succeeds with one commit, repository
`b` fails with a 404; the response is still 200 and contains exactly the
entry of `a`, while `b`'s fetch was attempted and contributed nothing. -/
theorem C3_witness :
    getGitHistory envMixed = some ⟨200,
      Json.arr [Json.obj [("repository_name", Json.str "a"),
        ("commit_message", Json.str "init"),
        ("commit_sha", Json.str "0123456"),
        ("commit_time", Json.str "2024-01-02T03:04:05Z"),
        ("commit_url", Json.str "http://c/a1")]],
      ["u/a", "u/b"]⟩ :=
  (C3_repo_failures_tolerated envMixed (some [repoA, repoB]) rfl rfl).1

/-- Claim C4: for every successful (non-faulting) run, the number of
entries in the serialized output equals the sum, over the repositories
whose commit call succeeded, of the length of that repository's commit
list. -/
theorem C4_entry_count (env : Upstream) (repos : GoSlice Repository)
    (h1 : fetchRepositories env = .ok repos)
    (h2 : shaOkB env repos.toList = true) :
    getGitHistory env =
      some ⟨200, goSliceToJson (goSliceOfList (historyBlocks env repos.toList)),
            repos.toList.map (·.FullName)⟩ ∧
    jsonArrayLength (goSliceToJson (goSliceOfList (historyBlocks env repos.toList))) =
      sumCommitCounts env repos.toList := by
  refine ⟨getGitHistory_ok env repos h1 h2, ?_⟩
  rw [jsonArrayLength_goSlice, historyBlocks_length]

/-- Witness for C4: in the mixed environment the output has exactly one
entry, the commit count of the single succeeding repository. -/
theorem C4_witness :
    jsonArrayLength (goSliceToJson (goSliceOfList (historyBlocks envMixed
        (GoSlice.toList (some [repoA, repoB]))))) =
      sumCommitCounts envMixed (GoSlice.toList (some [repoA, repoB])) ∧
    sumCommitCounts envMixed (GoSlice.toList (some [repoA, repoB])) = 1 :=
  ⟨(C4_entry_count envMixed (some [repoA, repoB]) rfl rfl).2, rfl⟩

/-- Claim C8: the output of every successful (non-faulting) run is the
per-repository blocks concatenated in listing order, each block the
commits of one repository mapped in fetched order — one contiguous block
per repository, with no re-sorting anywhere. -/
theorem C8_grouped_order (env : Upstream) (repos : GoSlice Repository)
    (h1 : fetchRepositories env = .ok repos)
    (h2 : shaOkB env repos.toList = true) :
    getGitHistory env =
      some ⟨200,
        goSliceToJson (goSliceOfList (repos.toList.flatMap (repoBlock env))),
        repos.toList.map (·.FullName)⟩ ∧
    (∀ repo commits, fetchCommits env repo.FullName = .ok commits →
        repoBlock env repo = commits.toList.map (entryTotal repo)) := by
  refine ⟨getGitHistory_ok env repos h1 h2, ?_⟩
  intro repo commits hfc
  simp [repoBlock, hfc]

/-- Witness for C8: the listing returns `b` before `a`; the output keeps
`b`'s two commits (in fetched order, older first) before `a`'s newer
commit — listing order and fetched order, not global time order. -/
theorem C8_witness :
    getGitHistory envOrder = some ⟨200, Json.arr [
      Json.obj [("repository_name", Json.str "b"),
        ("commit_message", Json.str "b one"),
        ("commit_sha", Json.str "0123456"),
        ("commit_time", Json.str "2020-05-05T05:05:05Z"),
        ("commit_url", Json.str "http://c/b1")],
      Json.obj [("repository_name", Json.str "b"),
        ("commit_message", Json.str "b two"),
        ("commit_sha", Json.str "fedcba9"),
        ("commit_time", Json.str "2021-06-06T06:06:06Z"),
        ("commit_url", Json.str "http://c/b2")],
      Json.obj [("repository_name", Json.str "a"),
        ("commit_message", Json.str "a one"),
        ("commit_sha", Json.str "fedcba9"),
        ("commit_time", Json.str "2024-01-02T03:04:05Z"),
        ("commit_url", Json.str "http://c/a1")]],
      ["u/b", "u/a"]⟩ :=
  (C8_grouped_order envOrder (some [repoB, repoA]) rfl rfl).1

/-- Claim C5, counterexample: a 201 response — a 2xx status — with a
perfectly decodable body is turned into an API error, because the code
compares against `http.StatusOK` (exactly 200), not against the 2xx
class. -/
theorem C5_counterexample :
    fetchRepositories env201 = .error (.api "201 Created" "[]") ∧
    decodeRepoSlice (Json.arr []) = some (some []) ∧
    201 / 100 = 2 :=
  ⟨rfl, rfl, rfl⟩

/-- Claim C5 as amended: for both fetchers, a response with status exactly
200 is treated as success and its body decoded, and any other status —
including other 2xx statuses — becomes an API error whose message carries
the numeric status, the status text, and the full raw response body; an
error is returned if and only if the status is not 200 or decoding
fails. -/
theorem C5_status_exactly_200 (env : Upstream) :
    (∀ resp, env.reposResp = .ok resp →
      (resp.StatusCode ≠ 200 →
        fetchRepositories env =
          .error (.api (toString resp.StatusCode ++ " " ++ resp.StatusText) resp.BodyRaw)) ∧
      (resp.StatusCode = 200 → ∀ j repos, resp.BodyJson = some j →
        decodeRepoSlice j = some repos → fetchRepositories env = .ok repos) ∧
      ((∃ e, fetchRepositories env = .error e) ↔
        (resp.StatusCode ≠ 200 ∨ resp.BodyJson = none ∨
          ∃ j, resp.BodyJson = some j ∧ decodeRepoSlice j = none))) ∧
    (∀ name resp, env.commitsResp name = .ok resp →
      (resp.StatusCode ≠ 200 →
        fetchCommits env name =
          .error (.api (toString resp.StatusCode ++ " " ++ resp.StatusText) resp.BodyRaw)) ∧
      (resp.StatusCode = 200 → ∀ j commits, resp.BodyJson = some j →
        decodeCommitSlice j = some commits → fetchCommits env name = .ok commits) ∧
      ((∃ e, fetchCommits env name = .error e) ↔
        (resp.StatusCode ≠ 200 ∨ resp.BodyJson = none ∨
          ∃ j, resp.BodyJson = some j ∧ decodeCommitSlice j = none))) := by
  constructor
  · intro resp h
    refine ⟨?_, ?_, ?_⟩
    · intro hne
      simp only [fetchRepositories, h]
      rw [if_pos hne]
      rfl
    · intro h200 j repos hj hdec
      simp [fetchRepositories, h, h200, hj, hdec]
    · by_cases hcode : resp.StatusCode = 200
      · cases hbody : resp.BodyJson with
        | none => simp [fetchRepositories, h, hcode, hbody]
        | some j =>
          cases hdec : decodeRepoSlice j with
          | none => simp [fetchRepositories, h, hcode, hbody, hdec]
          | some repos => simp [fetchRepositories, h, hcode, hbody, hdec]
      · simp [fetchRepositories, h, hcode]
  · intro name resp h
    refine ⟨?_, ?_, ?_⟩
    · intro hne
      simp only [fetchCommits, h]
      rw [if_pos hne]
      rfl
    · intro h200 j commits hj hdec
      simp [fetchCommits, h, h200, hj, hdec]
    · by_cases hcode : resp.StatusCode = 200
      · cases hbody : resp.BodyJson with
        | none => simp [fetchCommits, h, hcode, hbody]
        | some j =>
          cases hdec : decodeCommitSlice j with
          | none => simp [fetchCommits, h, hcode, hbody, hdec]
          | some commits => simp [fetchCommits, h, hcode, hbody, hdec]
      · simp [fetchCommits, h, hcode]

/-- Witness for C5: 404 responses to the listing call and to a commit call
each produce the API error carrying "404", "Not Found" and the raw body. -/
theorem C5_witness :
    fetchRepositories env404 = .error (.api "404 Not Found" "Not Found body") ∧
    fetchCommits envCommits404 "u/x" = .error (.api "404 Not Found" "Not Found body") :=
  ⟨((C5_status_exactly_200 env404).1 notFoundResp rfl).1 (by decide),
   ((C5_status_exactly_200 envCommits404).2 "u/x" notFoundResp rfl).1 (by decide)⟩

/-- Claim C6: for every commit whose sha has at least 7 characters, the
built entry's `commit_sha` is defined, is exactly the first 7 characters
of the sha, has length 7, and is a prefix of the sha. -/
theorem C6_sha_prefix (repo : Repository) (commit : Commit)
    (h : 7 ≤ commit.SHA.length) :
    ∃ e, buildEntry repo commit = some e ∧
      e.CommitSHA = (⟨commit.SHA.data.take 7⟩ : String) ∧
      e.CommitSHA.length = 7 ∧
      commit.SHA = e.CommitSHA ++ (⟨commit.SHA.data.drop 7⟩ : String) := by
  have h' : 7 ≤ commit.SHA.data.length := h
  refine ⟨entryTotal repo commit, ?_, rfl, ?_, ?_⟩
  · simp [buildEntry, goStringTake, h, h', entryTotal]
  · show (commit.SHA.data.take 7).length = 7
    rw [List.length_take]
    omega
  · apply String.ext
    show commit.SHA.data = commit.SHA.data.take 7 ++ commit.SHA.data.drop 7
    exact (List.take_append_drop 7 commit.SHA.data).symm

/-- Witness for C6: the 40-character fixture sha yields the entry whose
`commit_sha` is its first 7 characters. -/
theorem C6_witness :
    7 ≤ (mkCommit sha40 "init" "2024-01-02T03:04:05Z" "http://c/a1").SHA.length ∧
    ∃ e, buildEntry repoA (mkCommit sha40 "init" "2024-01-02T03:04:05Z" "http://c/a1") = some e ∧
      e.CommitSHA =
        (⟨(mkCommit sha40 "init" "2024-01-02T03:04:05Z" "http://c/a1").SHA.data.take 7⟩ : String) ∧
      e.CommitSHA.length = 7 ∧
      (mkCommit sha40 "init" "2024-01-02T03:04:05Z" "http://c/a1").SHA =
        e.CommitSHA ++
          (⟨(mkCommit sha40 "init" "2024-01-02T03:04:05Z" "http://c/a1").SHA.data.drop 7⟩ : String) :=
  ⟨by decide, C6_sha_prefix repoA (mkCommit sha40 "init" "2024-01-02T03:04:05Z" "http://c/a1")
    (by decide)⟩

/-- Helper: a list of empty JSON objects decodes element-wise to zero
repositories. -/
theorem mapM_empty_objs (elems : List Json) (h : ∀ x ∈ elems, x = Json.obj []) :
    elems.mapM (decodeRepository zeroRepository) =
      some (elems.map fun _ => zeroRepository) := by
  induction elems with
  | nil => rfl
  | cons x xs ih =>
    have hx : x = Json.obj [] := h x (List.mem_cons_self x xs)
    subst hx
    rw [List.mapM_cons, ih fun y hy => h y (List.mem_cons_of_mem _ hy)]
    rfl

/-- Claim C9: decoding is lenient — an object key matching no tag (even
under Go's case-insensitive key matching) is ignored by both struct
decoders, an object with no fields decodes to the zero value (empty
strings, zero time), a listing body of empty objects yields repositories
with empty names rather than an error, a case-variant key such as `Name`
does fill its field (and type-errors when its value has the wrong shape),
and a decode error can only arise from a body that is not a JSON array of
objects of compatible field types. -/
theorem C9_decode_leniency :
    (∀ k v fields cur,
      keyMatches k "name" = false ∧ keyMatches k "full_name" = false ∧
        keyMatches k "description" = false ∧ keyMatches k "html_url" = false →
      decodeRepository cur (Json.obj ((k, v) :: fields)) =
        decodeRepository cur (Json.obj fields)) ∧
    (∀ k v fields cur,
      keyMatches k "sha" = false ∧ keyMatches k "commit" = false ∧
        keyMatches k "html_url" = false →
      decodeCommit cur (Json.obj ((k, v) :: fields)) =
        decodeCommit cur (Json.obj fields)) ∧
    decodeRepository zeroRepository (Json.obj []) = some zeroRepository ∧
    decodeCommit zeroCommit (Json.obj []) = some zeroCommit ∧
    decodeRepository zeroRepository (Json.obj [("Name", Json.str "x")]) =
      some { Name := "x", FullName := "", Description := "", HTMLURL := "" } ∧
    decodeRepoSlice (Json.arr [Json.obj [("NAME", Json.num 42)]]) = none ∧
    (∀ elems, (∀ x ∈ elems, x = Json.obj []) →
      decodeRepoSlice (Json.arr elems) =
        some (some (elems.map fun _ => zeroRepository))) ∧
    (∀ j, decodeRepoSlice j = none → repoArrayCompatible j = false) ∧
    (∀ j, decodeCommitSlice j = none → commitArrayCompatible j = false) := by
  refine ⟨?_, ?_, rfl, rfl, rfl, rfl, ?_, ?_, ?_⟩
  · intro k v fields cur hk
    simp only [decodeRepository, List.foldlM_cons, setRepoField_unknown cur k v hk,
      Option.bind_eq_bind, Option.some_bind]
  · intro k v fields cur hk
    simp only [decodeCommit, List.foldlM_cons, setCommitField_unknown cur k v hk,
      Option.bind_eq_bind, Option.some_bind]
  · intro elems h
    simp only [decodeRepoSlice, mapM_empty_objs elems h, Option.map_some']
  · intro j h
    cases hcompat : repoArrayCompatible j with
    | false => rfl
    | true => exact absurd (decodeRepoSlice_isSome j hcompat) (by simp [h])
  · intro j h
    cases hcompat : commitArrayCompatible j with
    | false => rfl
    | true => exact absurd (decodeCommitSlice_isSome j hcompat) (by simp [h])

/-- Witness for C9: an unknown `stargazers_count` key is ignored, a
listing of two empty objects decodes to two zero repositories, and a
non-array body is indeed incompatible. -/
theorem C9_witness :
    decodeRepository zeroRepository
        (Json.obj [("stargazers_count", Json.num 3), ("name", Json.str "a")]) =
      decodeRepository zeroRepository (Json.obj [("name", Json.str "a")]) ∧
    decodeRepoSlice (Json.arr [Json.obj [], Json.obj []]) =
      some (some ([Json.obj [], Json.obj []].map fun _ => zeroRepository)) ∧
    repoArrayCompatible (Json.str "oops") = false :=
  ⟨C9_decode_leniency.1 "stargazers_count" (Json.num 3) [("name", Json.str "a")]
      zeroRepository (by decide),
   C9_decode_leniency.2.2.2.2.2.2.1 [Json.obj [], Json.obj []]
      (by simp [List.forall_mem_cons]),
   C9_decode_leniency.2.2.2.2.2.2.2.1 (Json.str "oops") rfl⟩

/-- Claim C10: the handler is deterministic in the upstream outcomes — two
worlds in which the listing call and every per-repository commit call have
the same decoded outcome produce identical responses, whatever else
differs (raw bytes, unknown fields, status texts of successful calls). -/
theorem C10_deterministic (e1 e2 : Upstream)
    (h1 : fetchRepositories e1 = fetchRepositories e2)
    (h2 : ∀ name, fetchCommits e1 name = fetchCommits e2 name) :
    getGitHistory e1 = getGitHistory e2 := by
  rw [getGitHistory, getGitHistory, h1]
  cases fetchRepositories e2 with
  | error e => rfl
  | ok repos =>
    dsimp only
    rw [aggregateLoop_congr e1 e2 h2 repos.toList none []]

/-- Witness for C10: two environments whose raw bodies differ byte for
byte (one even carries an extra unknown field) but whose decoded outcomes
agree produce the same response. -/
theorem C10_witness : getGitHistory envDetA = getGitHistory envDetB :=
  C10_deterministic envDetA envDetB rfl fun _ => rfl
